import Mathlib

/-!
Verification development for the QThreadWithReturn repository: a
future/promise abstraction with a companion thread-pool executor.

The core module (`qthreadwithreturn`) ships the `QThreadWithReturn`
future class and the `QThreadPoolExecutor` pool; the repository's
`src/` tree holds its callers (examples, demo GUI, test fixtures).
The definitions below are a shallow embedding of the core's data
model and operations, modelled from the specification (`spec.md`),
with the example code under `src/examples` and `src/demo` fixing
behaviour the spec leaves implicit (notably zero-parameter done
callbacks).

Machine values are modelled as a small Python-value type `PyVal`
(integers, strings, and tuples of those); errors as the spec's error
taxonomy `Err`; the Future state machine, callback dispatch, the
dispatcher post queue, `result(timeout)` waiting, and the pool
operations (`submit`, `map`, `as_completed`, `shutdown`) are explicit
executable functions or step relations over these types.
-/

namespace QThreadWithReturn

/-- Modelled from the spec: an atomic Python value appearing in task
results (an integer such as a computation result, or a string such as
the demo tasks return). -/
inductive PyAtom where
  | int (n : Int)
  | str (s : String)
deriving DecidableEq, Repr

/-- Modelled from the spec (§3 data model, "ordered sequence of result
values"): a task's result value is either a single atomic value or an
ordered sequence (a Python tuple) of atomic values, as produced by a
multi-value `return`. -/
inductive PyVal where
  | atom (a : PyAtom)
  | tuple (elts : List PyAtom)
deriving DecidableEq, Repr

/-- Modelled from the spec (§7 error taxonomy): TaskError wraps whatever
the Task callable raised; CancellationError signals a Cancelled future;
TimeoutError signals an expired bounded wait; ExecutorShutdownError
signals submission after shutdown; WorkerInitError signals a failed
worker initializer. -/
inductive Err where
  | taskError (msg : String)
  | cancellationError
  | timeoutError
  | executorShutdownError
  | workerInitError
deriving DecidableEq, Repr

/-- Modelled from the spec (§3): the Future's `outcome` field — one of
none, a result value, or a captured error — populated at the transition
into a terminal state. -/
inductive Outcome where
  | nothing
  | result (v : PyVal)
  | error (e : Err)
deriving DecidableEq, Repr

/-- Modelled from the spec (§3): the Future state machine's states.
`cancelRequested` is the graceful-cancellation limbo state entered by
`cancel(force_stop=false)`; forced cancellation goes directly to
`cancelled`. -/
inductive FState where
  | pending
  | running
  | cancelRequested
  | cancelled
  | completed
  | failed
deriving DecidableEq, Repr

/-- Modelled from the spec (§3): terminal states are Cancelled,
Completed and Failed. -/
def FState.isTerminal : FState → Bool
  | .cancelled => true
  | .completed => true
  | .failed => true
  | _ => false

/-- Modelled from the spec (§4.1, §9): a registered callback, identified
by an id and carrying its declared parameter count, which the library
inspects at registration time to decide how the result is delivered. -/
structure Callback where
  id : Nat
  arity : Nat
deriving DecidableEq, Repr

/-- Modelled from the spec (§4.1) and the example code
(`src/examples/basic_usage.py` lines 52–70,
`src/demo/thread_demo_gui.py` lines 827–877): the positional argument
list a done callback is invoked with.  A zero-parameter callback is
invoked with no arguments (the result is discarded); if the result is
an ordered sequence whose length equals the callback's declared
parameter count, its elements are unpacked positionally in order;
otherwise the whole result is passed as one value. -/
def callbackArgs (arity : Nat) (result : PyVal) : List PyVal :=
  if arity = 0 then []
  else
    match result with
    | .tuple elts => if elts.length = arity then elts.map PyVal.atom else [.tuple elts]
    | .atom a => [.atom a]

/-- Modelled from the spec (§2, §3): what the Task's callable does when
its body runs to its own end — return a value or raise. -/
inductive TaskRun where
  | returns (v : PyVal)
  | raises (msg : String)
deriving DecidableEq, Repr

/-- Modelled from the spec (§3, §4.1): a Task — the deferred unit of
work.  `run` abstracts the callable together with its bound arguments;
`pollsToken` records whether the task body polls the cooperative
cancellation token and returns early when it is set. -/
structure Task where
  run : TaskRun
  pollsToken : Bool
deriving DecidableEq, Repr

/-- Modelled from the spec (§3): a Future — the handle to one Task's
lifecycle, its eventual outcome, its registered callbacks and the
cooperative cancellation token. -/
structure Future where
  state : FState
  outcome : Outcome
  doneCallbacks : List Callback
  failureCallbacks : List Callback
  cancellationToken : Bool
deriving DecidableEq, Repr

/-- Modelled from the spec (§4.1): `create` yields a Future in
`Pending` with no outcome, no callbacks, and a clear token. -/
def Future.create : Future :=
  { state := .pending
    outcome := .nothing
    doneCallbacks := []
    failureCallbacks := []
    cancellationToken := false }

/-- Modelled from the spec (§4.1): `start` moves a Pending future to
Running; on any other state it changes nothing. -/
def Future.start (f : Future) : Future :=
  match f.state with
  | .pending => { f with state := .running }
  | _ => f

/-- Modelled from the spec (§3, §4.1): register a done callback, kept
in registration order. -/
def Future.addDoneCallback (f : Future) (cb : Callback) : Future :=
  { f with doneCallbacks := f.doneCallbacks ++ [cb] }

/-- Modelled from the spec (§3, §4.1): register a failure callback,
kept in registration order. -/
def Future.addFailureCallback (f : Future) (cb : Callback) : Future :=
  { f with failureCallbacks := f.failureCallbacks ++ [cb] }

/-- Modelled from the spec (§4.1): `cancel(force_stop)` is accepted
only while Pending or Running.  A graceful request moves the future to
`CancelRequested` and sets the cooperative token; a forced request
immediately transitions to Cancelled, whose outcome records the
Cancellation-kind error that `result()` raises for a Cancelled future.
Returns the updated future and whether the request was accepted. -/
def Future.cancel (f : Future) (forceStop : Bool) : Future × Bool :=
  match f.state with
  | .pending =>
      if forceStop then
        ({ f with state := .cancelled, outcome := .error .cancellationError }, true)
      else
        ({ f with state := .cancelRequested, cancellationToken := true }, true)
  | .running =>
      if forceStop then
        ({ f with state := .cancelled, outcome := .error .cancellationError }, true)
      else
        ({ f with state := .cancelRequested, cancellationToken := true }, true)
  | _ => (f, false)

/-- Modelled from the spec (§4.1 state machine): the Worker's terminal
transition when the task body finishes executing.  Applies only while
Running or CancelRequested.  If the cooperative token is set and the
task body polls it, the task returns early and the future becomes
Cancelled; otherwise a normal return yields Completed with the result
and a raise yields Failed with the captured error. -/
def Future.finish (f : Future) (t : Task) : Future :=
  if f.state = FState.running ∨ f.state = FState.cancelRequested then
    if f.cancellationToken && t.pollsToken then
      { f with state := .cancelled, outcome := .error .cancellationError }
    else
      match t.run with
      | .returns v => { f with state := .completed, outcome := .result v }
      | .raises msg => { f with state := .failed, outcome := .error (.taskError msg) }
  else f

/-- Modelled from the spec (§4.1): starting a future and running its
task body to the Worker's terminal transition. -/
def Future.runFull (f : Future) (t : Task) : Future :=
  (f.start).finish t

/-- Modelled from the spec (§4.1): the operations that can be applied
to a Future after creation. -/
inductive FOp where
  | start
  | addDone (cb : Callback)
  | addFailure (cb : Callback)
  | cancel (forceStop : Bool)
  | finish (t : Task)
deriving DecidableEq, Repr

/-- Applies one Future operation. -/
def applyOp (op : FOp) (f : Future) : Future :=
  match op with
  | .start => f.start
  | .addDone cb => f.addDoneCallback cb
  | .addFailure cb => f.addFailureCallback cb
  | .cancel fs => (f.cancel fs).1
  | .finish t => f.finish t

/-- Applies a sequence of Future operations, oldest first. -/
def runOps (ops : List FOp) (f : Future) : Future :=
  ops.foldl (fun g op => applyOp op g) f

/-- Futures reachable from `Future.create` by applying operations. -/
inductive Reachable : Future → Prop where
  | create : Reachable Future.create
  | step (op : FOp) {f : Future} : Reachable f → Reachable (applyOp op f)

/-- Modelled from the spec (§4.2, §6): an invocation packaged by the
Worker for the UI Dispatcher — a done callback applied to its resolved
positional arguments, or a failure callback applied to the captured
error. -/
inductive PostedCall where
  | done (cbId : Nat) (args : List PyVal)
  | failure (cbId : Nat) (e : Err)
deriving DecidableEq, Repr

/-- Modelled from the spec (§2, §5): threads — the owning thread and
the worker threads. -/
inductive ThreadId where
  | owner
  | worker (n : Nat)
deriving DecidableEq, Repr

/-- Modelled from the spec (§6): the UI Dispatcher's pending-work
queue, FIFO. -/
structure Dispatcher where
  queue : List PostedCall
deriving DecidableEq, Repr

/-- Modelled from the spec (§6): `post` schedules one callable for
execution on the owning thread, at the back of the queue. -/
def Dispatcher.post (d : Dispatcher) (pc : PostedCall) : Dispatcher :=
  { queue := d.queue ++ [pc] }

/-- Posts a batch of packaged invocations in order. -/
def Dispatcher.postAll (d : Dispatcher) (pcs : List PostedCall) : Dispatcher :=
  pcs.foldl Dispatcher.post d

/-- Observable events of the cross-thread handoff: the terminal state
(with its outcome) becoming durably visible, and a callback invocation
on a given thread. -/
inductive Event where
  | write (s : FState) (o : Outcome)
  | invoke (th : ThreadId) (pc : PostedCall)
deriving DecidableEq, Repr

/-- Modelled from the spec (§6): `pump_pending` processes the queued
posted work in FIFO order; every queued invocation executes on the
owning thread. -/
def Dispatcher.pump (d : Dispatcher) : List Event × Dispatcher :=
  (d.queue.map (fun pc => Event.invoke .owner pc), { queue := [] })

/-- Modelled from the spec (§4.2): the invocations a terminal future's
outcome is packaged into — Completed feeds every registered done
callback (arguments resolved by the arity contract), Failed feeds
every registered failure callback with the captured error, Cancelled
feeds neither. -/
def Future.packageCallbacks (f : Future) : List PostedCall :=
  match f.state, f.outcome with
  | .completed, .result v =>
      f.doneCallbacks.map (fun cb => .done cb.id (callbackArgs cb.arity v))
  | .failed, .error e =>
      f.failureCallbacks.map (fun cb => .failure cb.id e)
  | _, _ => []

/-- Modelled from the spec (§4.2): the event trace of a Worker's
terminal transition — the terminal state is committed first, then the
packaged callbacks are posted to the UI Dispatcher and pumped on the
owning thread. -/
def workerFinishEvents (t : Task) (f : Future) : List Event :=
  let f' := f.finish t
  let d := Dispatcher.postAll { queue := [] } f'.packageCallbacks
  Event.write f'.state f'.outcome :: (d.pump).1

/-- Recognizes a done-callback invocation event. -/
def Event.isDoneInvoke : Event → Bool
  | .invoke _ (.done _ _) => true
  | _ => false

/-- Recognizes a failure-callback invocation event. -/
def Event.isFailureInvoke : Event → Bool
  | .invoke _ (.failure _ _) => true
  | _ => false

/-- Recognizes a done-callback invocation event for a given callback id. -/
def Event.isDoneInvokeFor (cbId : Nat) : Event → Bool
  | .invoke _ (.done i _) => i == cbId
  | _ => false

/-- Recognizes a failure-callback invocation event for a given callback
id carrying a given error. -/
def Event.isFailureInvokeFor (cbId : Nat) (e : Err) : Event → Bool
  | .invoke _ (.failure i e') => i == cbId && e' == e
  | _ => false

/-- Modelled from the spec (§4.1): the value `result()` produces once
the future is terminal — the stored result on Completed, the re-raised
captured error on Failed, a Cancellation-kind error on Cancelled.
Callers guard this with terminality, so the non-terminal fallback is
never reached in the theorems below. -/
def Future.resultValue (f : Future) : Except Err PyVal :=
  match f.state, f.outcome with
  | .completed, .result v => .ok v
  | .failed, .error e => .error e
  | .cancelled, _ => .error .cancellationError
  | _, _ => .error .timeoutError

/-- Modelled from the spec (§4.1): `result(timeout)` observed over a
discrete-time trace of the future's states — it waits tick by tick
until the first tick at which the future is terminal, returning that
terminal future's result value, and raises a Timeout-kind error if no
tick up to the deadline is terminal. -/
def resultWithin (trace : Nat → Future) (deadline : Nat) : Except Err PyVal :=
  match (List.range (deadline + 1)).find? (fun i => (trace i).state.isTerminal) with
  | some i => (trace i).resultValue
  | none => .error .timeoutError

/-- Modelled from the spec (§3, §4.3): the Pool Executor's state as far
as the claims need it — the shutdown flag and the submitted futures,
each paired with its Task, in submission order. -/
structure Pool where
  shutdownFlag : Bool
  futures : List (Future × Task)
deriving DecidableEq, Repr

/-- Modelled from the spec (§4.3): a freshly constructed pool — not
shut down, nothing submitted. -/
def Pool.fresh : Pool :=
  { shutdownFlag := false, futures := [] }

/-- Modelled from the spec (§4.3): `submit` wraps a new Task, enqueues
it and returns a Pending Future immediately; it fails with an
ExecutorShutdown-kind error after `shutdown()`. -/
def Pool.submit (p : Pool) (t : Task) : Except Err (Pool × Future) :=
  if p.shutdownFlag then .error .executorShutdownError
  else .ok ({ p with futures := p.futures ++ [(Future.create, t)] }, Future.create)

/-- The pool after one submission attempt, unchanged when the
submission is rejected. -/
def Pool.submitStep (p : Pool) (t : Task) : Pool :=
  match p.submit t with
  | .ok qf => qf.1
  | .error _ => p

/-- Submits a batch of tasks in order, keeping the pool unchanged on a
rejected submission. -/
def Pool.submitMany (p : Pool) (ts : List Task) : Pool :=
  ts.foldl Pool.submitStep p

/-- Modelled from the spec (§4.3, §5): the Workers draining the queue —
every submitted future is run to its terminal transition; futures that
are already terminal are untouched. -/
def Pool.drain (p : Pool) : Pool :=
  { p with futures := p.futures.map (fun ft => (ft.1.runFull ft.2, ft.2)) }

/-- Modelled from the spec (§4.3): `shutdown(wait, cancel_futures)`
stops accepting new submissions; with `cancel_futures` it attempts
graceful cancellation of the submitted futures; with `wait` it blocks
until the Workers drain all in-flight and queued Tasks. -/
def Pool.shutdown (p : Pool) (wait : Bool) (cancelFutures : Bool) : Pool :=
  let p1 : Pool := { p with shutdownFlag := true }
  let p2 : Pool :=
    if cancelFutures then
      { p1 with futures := p1.futures.map (fun ft => ((ft.1.cancel false).1, ft.2)) }
    else p1
  if wait then p2.drain else p2

/-- Modelled from the spec (§4.3): collecting `map`'s per-task results
in input order — the first error scanned in input order is the one
surfaced to the caller; otherwise the ordered list of values. -/
def mapResults (rs : List (Except Err PyVal)) : Except Err (List PyVal) :=
  match rs with
  | [] => .ok []
  | .error e :: _ => .error e
  | .ok v :: rest =>
      match mapResults rest with
      | .ok vs => .ok (v :: vs)
      | .error e => .error e

/-- Modelled from the spec (§4.3): `Pool.map` submits one Task per
input, blocks until all complete, and collects the results in input
order via `mapResults`. -/
def poolMap {α : Type} (f : α → Except Err PyVal) (xs : List α) : Except Err (List PyVal) :=
  mapResults (xs.map f)

/-- Modelled from the spec (§8): the squaring task used by the spec's
`Pool.map(square, [1,2,3])` example. -/
def squareTask (n : Int) : Except Err PyVal :=
  .ok (.atom (.int (n * n)))

/-- Modelled from the spec (§4.3): `as_completed` over a set of
futures, each identified by an id paired with the tick at which it
becomes terminal.  The iterator advances tick by tick and yields every
future whose terminal tick has been reached, so futures already
terminal before iteration begins are yielded at the first tick and
none is missed. -/
def asCompleted (fs : List (Nat × Nat)) : List (Nat × Nat) :=
  (List.range ((fs.map Prod.snd).foldr max 0 + 1)).flatMap
    (fun tick => fs.filter (fun p => p.2 = tick))

/-- A task that returns the single value 7, never polling the token. -/
def taskReturns7 : Task :=
  { run := .returns (.atom (.int 7)), pollsToken := false }

/-- A task that raises, never polling the token. -/
def taskRaisesBoom : Task :=
  { run := .raises "boom", pollsToken := false }

/-- A running future with one done callback (id 1, arity 1) and one
failure callback (id 2, arity 1). -/
def runningFut : Future :=
  { state := .running
    outcome := .nothing
    doneCallbacks := [{ id := 1, arity := 1 }]
    failureCallbacks := [{ id := 2, arity := 1 }]
    cancellationToken := false }

/-- The future obtained by starting a fresh future and letting
`taskReturns7` run to completion. -/
def terminalFut : Future :=
  applyOp (.finish taskReturns7) (applyOp .start Future.create)

/- ===================== Theorems ===================== -/

/-- The dispatcher queue after posting a batch is the old queue
followed by the batch, in order. -/
theorem postAll_queue (pcs : List PostedCall) (d : Dispatcher) :
    (Dispatcher.postAll d pcs).queue = d.queue ++ pcs := by
  induction pcs generalizing d with
  | nil => simp [Dispatcher.postAll]
  | cons pc rest ih =>
      show (Dispatcher.postAll (d.post pc) rest).queue = _
      rw [ih]
      simp [Dispatcher.post]

/-- C10: a zero-parameter done callback is invoked with no arguments
when the task completes; the non-empty result is discarded rather than
passed (so no arity error can occur at invocation), and in the
terminal event trace the callback's invocation carries an empty
argument list. -/
theorem zero_param_callback_no_args (f : Future) (t : Task) (cb : Callback) (v : PyVal)
    (hs : f.state = FState.running) (hp : f.cancellationToken = false)
    (hr : t.run = TaskRun.returns v) (hcb : cb ∈ f.doneCallbacks) (ha : cb.arity = 0) :
    (∀ r : PyVal, callbackArgs 0 r = []) ∧
    PostedCall.done cb.id [] ∈ (f.finish t).packageCallbacks ∧
    Event.invoke ThreadId.owner (PostedCall.done cb.id []) ∈ workerFinishEvents t f := by
  have hargs : ∀ r : PyVal, callbackArgs 0 r = [] := by
    intro r
    simp [callbackArgs]
  have hfin : f.finish t =
      { f with state := .completed, outcome := .result v } := by
    simp [Future.finish, hs, hp, hr]
  have hpkg : (f.finish t).packageCallbacks =
      f.doneCallbacks.map (fun c => PostedCall.done c.id (callbackArgs c.arity v)) := by
    rw [hfin]
    simp [Future.packageCallbacks]
  refine ⟨hargs, ?_, ?_⟩
  · rw [hpkg]
    have : PostedCall.done cb.id (callbackArgs cb.arity v) ∈
        f.doneCallbacks.map (fun c => PostedCall.done c.id (callbackArgs c.arity v)) :=
      List.mem_map_of_mem _ hcb
    rwa [ha, hargs v] at this
  · rw [workerFinishEvents]
    simp only [Dispatcher.pump, postAll_queue]
    rw [hpkg]
    simp only [List.nil_append, List.map_map]
    refine List.mem_cons_of_mem _ ?_
    have : Event.invoke ThreadId.owner (PostedCall.done cb.id (callbackArgs cb.arity v)) ∈
        f.doneCallbacks.map
          ((fun pc => Event.invoke ThreadId.owner pc) ∘
            (fun c => PostedCall.done c.id (callbackArgs c.arity v))) :=
      List.mem_map_of_mem _ hcb
    rwa [ha, hargs v] at this

/-- C10 witness: on the concrete running future with its done callback
replaced by a zero-parameter one, the callback's posted invocation has
an empty argument list. -/
theorem zero_param_callback_no_args_witness :
    PostedCall.done 1 [] ∈
      (({ runningFut with doneCallbacks := [{ id := 1, arity := 0 }] } : Future).finish
        taskReturns7).packageCallbacks :=
  (zero_param_callback_no_args
    { runningFut with doneCallbacks := [{ id := 1, arity := 0 }] }
    taskReturns7 { id := 1, arity := 0 } (.atom (.int 7))
    rfl rfl rfl (by simp) rfl).2.1

/-- C4 counterexample: with a zero-parameter callback and a
single-value result, the claimed fallback — "otherwise the whole
result is passed as one value" — fails: the callback is invoked with
no arguments, as the repository's zero-parameter-callback examples
demonstrate. -/
theorem unpack_otherwise_counterexample :
    callbackArgs 0 (PyVal.atom (PyAtom.int 5)) ≠ [PyVal.atom (PyAtom.int 5)] := by
  decide

/-- C4 (amended): if the result is an ordered sequence of n values and
the done callback is declared to accept n values, the callback receives
the n elements unpacked positionally in order; otherwise, a callback
accepting at least one value receives the whole result as one value,
while a zero-parameter callback is invoked with no arguments. -/
theorem unpack_by_arity (n : Nat) (elts : List PyAtom) (r : PyVal) :
    (elts.length = n → callbackArgs n (PyVal.tuple elts) = elts.map PyVal.atom) ∧
    (1 ≤ n → (∀ es, r = PyVal.tuple es → es.length ≠ n) → callbackArgs n r = [r]) ∧
    callbackArgs 0 r = [] := by
  refine ⟨?_, ?_, ?_⟩
  · intro hlen
    cases n with
    | zero =>
        have : elts = [] := List.length_eq_zero.mp hlen
        subst this
        simp [callbackArgs]
    | succ m =>
        simp [callbackArgs, hlen]
  · intro hn hne
    have hnz : n ≠ 0 := by omega
    cases r with
    | atom a => simp [callbackArgs, hnz]
    | tuple es =>
        have : es.length ≠ n := hne es rfl
        simp [callbackArgs, hnz, this]
  · simp [callbackArgs]

/-- C4 witness: a 3-element result with a 3-parameter callback is
unpacked positionally; a 2-element result with a 1-parameter callback
is passed whole as one value; a zero-parameter callback gets no
arguments. -/
theorem unpack_by_arity_witness :
    callbackArgs 3 (PyVal.tuple [PyAtom.int 100, PyAtom.int 200, PyAtom.int 300]) =
      [PyVal.atom (PyAtom.int 100), PyVal.atom (PyAtom.int 200),
        PyVal.atom (PyAtom.int 300)] ∧
    callbackArgs 1 (PyVal.tuple [PyAtom.int 1, PyAtom.int 2]) =
      [PyVal.tuple [PyAtom.int 1, PyAtom.int 2]] ∧
    callbackArgs 0 (PyVal.atom (PyAtom.str "x")) = [] := by
  refine ⟨?_, ?_, ?_⟩
  · exact (unpack_by_arity 3 [PyAtom.int 100, PyAtom.int 200, PyAtom.int 300]
      (PyVal.atom (PyAtom.int 0))).1 rfl
  · exact (unpack_by_arity 1 [] (PyVal.tuple [PyAtom.int 1, PyAtom.int 2])).2.1
      (by decide) (by intro es hes; cases hes; decide)
  · exact (unpack_by_arity 0 [] (PyVal.atom (PyAtom.str "x"))).2.2

/-- Any single operation leaves a terminal future's state and outcome
unchanged. -/
theorem applyOp_terminal_stable (op : FOp) (f : Future) (h : f.state.isTerminal = true) :
    (applyOp op f).state = f.state ∧ (applyOp op f).outcome = f.outcome := by
  cases op <;>
    cases hstate : f.state <;>
      simp_all [applyOp, Future.start, Future.addDoneCallback, Future.addFailureCallback,
        Future.cancel, Future.finish, FState.isTerminal]

/-- Any sequence of operations leaves a terminal future's state and
outcome unchanged. -/
theorem runOps_terminal_stable (ops : List FOp) (f : Future) (h : f.state.isTerminal = true) :
    (runOps ops f).state = f.state ∧ (runOps ops f).outcome = f.outcome := by
  induction ops generalizing f with
  | nil => exact ⟨rfl, rfl⟩
  | cons op rest ih =>
      have h1 := applyOp_terminal_stable op f h
      have h2 : (applyOp op f).state.isTerminal = true := by rw [h1.1]; exact h
      have h3 := ih (applyOp op f) h2
      exact ⟨h3.1.trans h1.1, h3.2.trans h1.2⟩

/-- Along reachable histories the outcome is populated exactly when
the state is terminal. -/
theorem reachable_outcome_iff {f : Future} (h : Reachable f) :
    f.outcome ≠ Outcome.nothing ↔ f.state.isTerminal = true := by
  induction h with
  | create => simp [Future.create, FState.isTerminal]
  | step op hr ih =>
      rename_i g
      cases op with
      | start =>
          cases hstate : g.state <;>
            simp_all [applyOp, Future.start, FState.isTerminal]
      | addDone cb => simpa [applyOp, Future.addDoneCallback] using ih
      | addFailure cb => simpa [applyOp, Future.addFailureCallback] using ih
      | cancel fs =>
          cases hstate : g.state <;>
            cases fs <;>
              simp_all [applyOp, Future.cancel, FState.isTerminal]
      | finish t =>
          cases hstate : g.state <;>
            cases htok : g.cancellationToken <;>
              cases hpoll : t.pollsToken <;>
                cases hrun : t.run <;>
                  simp_all [applyOp, Future.finish, FState.isTerminal]

/-- C2: once a Future's state is set to a terminal value, no further
sequence of operations changes its state or its outcome; and along any
reachable history the outcome is populated exactly when the state is
terminal, so the outcome is written exactly once, at the transition
into the terminal state. -/
theorem terminal_state_monotonic (f : Future) (h : Reachable f) :
    (∀ ops : List FOp, f.state.isTerminal = true →
      (runOps ops f).state = f.state ∧ (runOps ops f).outcome = f.outcome) ∧
    (f.outcome ≠ Outcome.nothing ↔ f.state.isTerminal = true) :=
  ⟨fun ops ht => runOps_terminal_stable ops f ht, reachable_outcome_iff h⟩

/-- C2 witness: the concrete completed future reached by create, start,
finish is untouched by a subsequent forced cancel, and its outcome is
populated. -/
theorem terminal_state_monotonic_witness :
    ((runOps [FOp.cancel true] terminalFut).state = terminalFut.state ∧
      (runOps [FOp.cancel true] terminalFut).outcome = terminalFut.outcome) ∧
    terminalFut.outcome ≠ Outcome.nothing :=
  ⟨(terminal_state_monotonic terminalFut
      (Reachable.step _ (Reachable.step _ Reachable.create))).1 [FOp.cancel true] (by decide),
    (terminal_state_monotonic terminalFut
      (Reachable.step _ (Reachable.step _ Reachable.create))).2.mpr (by decide)⟩

/-- The worker's terminal event trace is the terminal write followed by
the packaged callbacks invoked on the owning thread, in package order. -/
theorem workerFinishEvents_eq (t : Task) (f : Future) :
    workerFinishEvents t f =
      Event.write (f.finish t).state (f.finish t).outcome ::
        (f.finish t).packageCallbacks.map (Event.invoke ThreadId.owner) := by
  rw [workerFinishEvents]
  simp [Dispatcher.pump, postAll_queue]

/-- Finishing a running (or cancel-requested) future whose task returns
normally and does not honour the token yields Completed with the
result stored. -/
theorem finish_returns (f : Future) (t : Task) (v : PyVal)
    (hs : f.state = FState.running ∨ f.state = FState.cancelRequested)
    (hp : (f.cancellationToken && t.pollsToken) = false)
    (hr : t.run = TaskRun.returns v) :
    f.finish t = { f with state := .completed, outcome := .result v } := by
  simp [Future.finish, hs, hp, hr]

/-- Finishing a running (or cancel-requested) future whose task raises
and does not honour the token yields Failed with the captured error. -/
theorem finish_raises (f : Future) (t : Task) (msg : String)
    (hs : f.state = FState.running ∨ f.state = FState.cancelRequested)
    (hp : (f.cancellationToken && t.pollsToken) = false)
    (hr : t.run = TaskRun.raises msg) :
    f.finish t = { f with state := .failed, outcome := .error (.taskError msg) } := by
  simp [Future.finish, hs, hp, hr]

/-- C1: when a running future's task returns normally, each registered
done callback is invoked exactly once in the terminal event trace and
no failure callback fires; when the task raises, each registered
failure callback is invoked exactly once with the captured error and
no done callback fires; and the two delivery paths are mutually
exclusive for every future and task. -/
theorem callback_delivery_exclusive (f : Future) (t : Task)
    (hs : f.state = FState.running)
    (hp : (f.cancellationToken && t.pollsToken) = false)
    (hd : (f.doneCallbacks.map Callback.id).Nodup)
    (hf : (f.failureCallbacks.map Callback.id).Nodup) :
    (∀ v, t.run = TaskRun.returns v →
      (∀ cb ∈ f.doneCallbacks,
        (workerFinishEvents t f).countP (Event.isDoneInvokeFor cb.id) = 1) ∧
      (workerFinishEvents t f).countP Event.isFailureInvoke = 0) ∧
    (∀ msg, t.run = TaskRun.raises msg →
      (∀ cb ∈ f.failureCallbacks,
        (workerFinishEvents t f).countP
          (Event.isFailureInvokeFor cb.id (Err.taskError msg)) = 1) ∧
      (workerFinishEvents t f).countP Event.isDoneInvoke = 0) ∧
    ((workerFinishEvents t f).countP Event.isDoneInvoke = 0 ∨
      (workerFinishEvents t f).countP Event.isFailureInvoke = 0) := by
  refine ⟨?_, ?_, ?_⟩
  · intro v hr
    have hfin := finish_returns f t v (Or.inl hs) hp hr
    rw [workerFinishEvents_eq, hfin]
    simp only [Future.packageCallbacks]
    constructor
    · intro cb hcb
      have key : (f.doneCallbacks.map Callback.id).count cb.id = 1 :=
        List.count_eq_one_of_mem hd (List.mem_map_of_mem _ hcb)
      rw [List.count, List.countP_map] at key
      rw [List.countP_cons]
      simp only [Event.isDoneInvokeFor, List.map_map, List.countP_map]
      simpa [Function.comp, Event.isDoneInvokeFor] using key
    · simp [List.countP_cons, List.countP_map, Function.comp,
        Event.isFailureInvoke, List.countP_eq_zero]
  · intro msg hr
    have hfin := finish_raises f t msg (Or.inl hs) hp hr
    rw [workerFinishEvents_eq, hfin]
    simp only [Future.packageCallbacks]
    constructor
    · intro cb hcb
      have key : (f.failureCallbacks.map Callback.id).count cb.id = 1 :=
        List.count_eq_one_of_mem hf (List.mem_map_of_mem _ hcb)
      rw [List.count, List.countP_map] at key
      rw [List.countP_cons]
      simp only [List.map_map, List.countP_map]
      have hfun : (Event.isFailureInvokeFor cb.id (Err.taskError msg) ∘
          Event.invoke ThreadId.owner ∘
            fun c : Callback => PostedCall.failure c.id (Err.taskError msg)) =
          ((fun x => x == cb.id) ∘ Callback.id) := by
        funext c
        simp [Event.isFailureInvokeFor, Function.comp]
      rw [hfun]
      simpa [Event.isFailureInvokeFor] using key
    · simp [List.countP_cons, List.countP_map, Function.comp,
        Event.isDoneInvoke, List.countP_eq_zero]
  · cases hrun : t.run with
    | returns v =>
        right
        have hfin := finish_returns f t v (Or.inl hs) hp hrun
        rw [workerFinishEvents_eq, hfin]
        simp only [Future.packageCallbacks]
        simp [List.countP_cons, List.countP_map, Function.comp,
          Event.isFailureInvoke, List.countP_eq_zero]
    | raises msg =>
        left
        have hfin := finish_raises f t msg (Or.inl hs) hp hrun
        rw [workerFinishEvents_eq, hfin]
        simp only [Future.packageCallbacks]
        simp [List.countP_cons, List.countP_map, Function.comp,
          Event.isDoneInvoke, List.countP_eq_zero]

/-- C1 witness: on the concrete running future with one done and one
failure callback and the task that returns 7, the done callback fires
exactly once and no failure callback fires. -/
theorem callback_delivery_exclusive_witness :
    (workerFinishEvents taskReturns7 runningFut).countP
        (Event.isDoneInvokeFor 1) = 1 ∧
    (workerFinishEvents taskReturns7 runningFut).countP Event.isFailureInvoke = 0 :=
  have h := (callback_delivery_exclusive runningFut taskReturns7 rfl rfl
    (by decide) (by decide)).1 (.atom (.int 7)) rfl
  ⟨h.1 { id := 1, arity := 1 } (by decide), h.2⟩

/-- C9: the worker's terminal transition first commits the terminal
state and outcome (the write event heads the trace), then every
registered callback of the relevant kind is invoked on the owning
thread — never a worker thread — in registration order, one invocation
per registration. -/
theorem callbacks_on_owner_in_order (f : Future) (t : Task)
    (hs : f.state = FState.running)
    (hp : (f.cancellationToken && t.pollsToken) = false) :
    (f.finish t).state.isTerminal = true ∧
    workerFinishEvents t f =
      Event.write (f.finish t).state (f.finish t).outcome ::
        (f.finish t).packageCallbacks.map (Event.invoke ThreadId.owner) ∧
    (∀ v, t.run = TaskRun.returns v →
      (f.finish t).packageCallbacks =
        f.doneCallbacks.map (fun cb => PostedCall.done cb.id (callbackArgs cb.arity v))) ∧
    (∀ msg, t.run = TaskRun.raises msg →
      (f.finish t).packageCallbacks =
        f.failureCallbacks.map
          (fun cb => PostedCall.failure cb.id (Err.taskError msg))) := by
  refine ⟨?_, workerFinishEvents_eq t f, ?_, ?_⟩
  · cases hrun : t.run with
    | returns v => rw [finish_returns f t v (Or.inl hs) hp hrun]; rfl
    | raises msg => rw [finish_raises f t msg (Or.inl hs) hp hrun]; rfl
  · intro v hr
    rw [finish_returns f t v (Or.inl hs) hp hr]
    simp [Future.packageCallbacks]
  · intro msg hr
    rw [finish_raises f t msg (Or.inl hs) hp hr]
    simp [Future.packageCallbacks]

/-- C9 witness: for the concrete running future and the task returning
7, the terminal future is terminal and its packaged callbacks follow
registration order with the arity-resolved arguments. -/
theorem callbacks_on_owner_in_order_witness :
    (runningFut.finish taskReturns7).state.isTerminal = true ∧
    (runningFut.finish taskReturns7).packageCallbacks =
      [PostedCall.done 1 [PyVal.atom (PyAtom.int 7)]] :=
  have h := callbacks_on_owner_in_order runningFut taskReturns7 rfl rfl
  ⟨h.1, by rw [h.2.2.1 (.atom (.int 7)) rfl]; decide⟩

/-- In a trace where terminal states persist, every tick at or after a
terminal tick shows the same future. -/
theorem trace_stable_from (trace : Nat → Future)
    (hmono : ∀ i, (trace i).state.isTerminal = true → trace (i + 1) = trace i)
    (i : Nat) (hi : (trace i).state.isTerminal = true) :
    ∀ j, i ≤ j → trace j = trace i := by
  intro j hj
  induction j with
  | zero =>
      have h0 : i = 0 := Nat.le_zero.mp hj
      subst h0
      rfl
  | succ k ih =>
      rcases Nat.eq_or_lt_of_le hj with heq | hlt
      · subst heq
        rfl
      · have hik : i ≤ k := Nat.lt_succ_iff.mp hlt
        have hk := ih hik
        have hkt : (trace k).state.isTerminal = true := by rw [hk]; exact hi
        rw [hmono k hkt, hk]

/-- C3: over a trace where terminal states persist, `result(timeout)`
waits until the first terminal tick — raising a Timeout-kind error if
none occurs by the deadline — and at a terminal tick it returns the
stored result on Completed (the same stored value from which the done
callbacks' arguments are resolved; for a single-parameter callback and
a single-value result, exactly that value), re-raises the captured
error on Failed, and raises a Cancellation-kind error on Cancelled. -/
theorem result_wait_semantics (trace : Nat → Future) (deadline : Nat)
    (hmono : ∀ i, (trace i).state.isTerminal = true → trace (i + 1) = trace i) :
    ((∀ i, i ≤ deadline → (trace i).state.isTerminal = false) →
      resultWithin trace deadline = Except.error Err.timeoutError) ∧
    (∀ k, k ≤ deadline → (trace k).state.isTerminal = true →
      resultWithin trace deadline = (trace k).resultValue) ∧
    (∀ g : Future, ∀ v, g.state = FState.completed → g.outcome = .result v →
      g.resultValue = Except.ok v ∧
      g.packageCallbacks =
        g.doneCallbacks.map (fun cb => PostedCall.done cb.id (callbackArgs cb.arity v)) ∧
      (∀ a : PyAtom, v = .atom a → callbackArgs 1 v = [v])) ∧
    (∀ g : Future, ∀ e, g.state = FState.failed → g.outcome = .error e →
      g.resultValue = Except.error e) ∧
    (∀ g : Future, g.state = FState.cancelled →
      g.resultValue = Except.error Err.cancellationError) := by
  refine ⟨?_, ?_, ?_, ?_, ?_⟩
  · intro h
    have hnone : (List.range (deadline + 1)).find?
        (fun i => (trace i).state.isTerminal) = none := by
      rw [List.find?_eq_none]
      intro x hx
      simp [h x (Nat.lt_succ_iff.mp (List.mem_range.mp hx))]
    simp [resultWithin, hnone]
  · intro k hk hkt
    have hsome : ((List.range (deadline + 1)).find?
        (fun i => (trace i).state.isTerminal)).isSome = true :=
      List.find?_isSome.mpr ⟨k, List.mem_range.mpr (Nat.lt_succ_iff.mpr hk), hkt⟩
    obtain ⟨i, hi⟩ := Option.isSome_iff_exists.mp hsome
    have hit : (trace i).state.isTerminal = true :=
      List.find?_some (p := fun j => (trace j).state.isTerminal) hi
    have heq : trace i = trace k := by
      rcases Nat.le_total i k with h' | h'
      · exact (trace_stable_from trace hmono i hit k h').symm
      · exact trace_stable_from trace hmono k hkt i h'
    simp [resultWithin, hi, heq]
  · intro g v hst hout
    refine ⟨?_, ?_, ?_⟩
    · simp [Future.resultValue, hst, hout]
    · simp [Future.packageCallbacks, hst, hout]
    · intro a ha
      subst ha
      simp [callbackArgs]
  · intro g e hst hout
    simp [Future.resultValue, hst, hout]
  · intro g hst
    cases hout : g.outcome <;> simp [Future.resultValue, hst, hout]

/-- C3 witness: a constant trace sitting at the concrete completed
future immediately yields its stored result value. -/
theorem result_wait_semantics_witness :
    resultWithin (fun _ => terminalFut) 0 = Except.ok (PyVal.atom (PyAtom.int 7)) := by
  have h := (result_wait_semantics (fun _ => terminalFut) 0 (fun i _ => rfl)).2.1 0
    (Nat.le_refl 0) (by decide)
  rw [h]
  rfl

/-- C8: a graceful cancel request on a Pending or Running future whose
task never polls the cooperative token leaves the eventual terminal
state and outcome exactly as they would have been without the request,
and that terminal state is Completed or Failed — never Cancelled. -/
theorem graceful_cancel_advisory (f : Future) (t : Task)
    (hs : f.state = FState.pending ∨ f.state = FState.running)
    (ht : t.pollsToken = false) :
    ((f.cancel false).1.runFull t).state = (f.runFull t).state ∧
    ((f.cancel false).1.runFull t).outcome = (f.runFull t).outcome ∧
    ((f.runFull t).state = FState.completed ∨ (f.runFull t).state = FState.failed) ∧
    ((f.cancel false).1.runFull t).state ≠ FState.cancelled := by
  rcases hs with hs | hs <;>
    cases hrun : t.run <;>
      simp [Future.runFull, Future.start, Future.finish, Future.cancel, hs, ht, hrun]

/-- C8 witness: gracefully cancelling the fresh pending future does not
change where the token-ignoring task lands: it still completes. -/
theorem graceful_cancel_advisory_witness :
    ((Future.create.cancel false).1.runFull taskReturns7).state =
      (Future.create.runFull taskReturns7).state ∧
    ((Future.create.runFull taskReturns7).state = FState.completed ∨
      (Future.create.runFull taskReturns7).state = FState.failed) :=
  have h := graceful_cancel_advisory Future.create taskReturns7 (Or.inl rfl) rfl
  ⟨h.1, h.2.2.1⟩

/-- When every task succeeds, `map` collects the values in input
order. -/
theorem poolMap_all_ok {α : Type} (f : α → Except Err PyVal) (g : α → PyVal) :
    ∀ xs : List α, (∀ x ∈ xs, f x = .ok (g x)) → poolMap f xs = .ok (xs.map g) := by
  intro xs
  induction xs with
  | nil => intro _; rfl
  | cons y ys ih =>
      intro h
      have hy := h y (List.mem_cons_self y ys)
      have hys := ih (fun x hx => h x (List.mem_cons_of_mem _ hx))
      simp only [poolMap, List.map_cons] at hys ⊢
      rw [hy]
      simp [mapResults, hys]

/-- The first error scanned in input order is the one `map` surfaces. -/
theorem poolMap_first_error {α : Type} (f : α → Except Err PyVal) :
    ∀ (as : List α) (x : α) (bs : List α) (e : Err),
      (∀ a ∈ as, ∃ v, f a = .ok v) → f x = .error e →
      poolMap f (as ++ x :: bs) = .error e := by
  intro as
  induction as with
  | nil =>
      intro x bs e _ hx
      simp only [poolMap, List.nil_append, List.map_cons]
      rw [hx]
      rfl
  | cons a rest ih =>
      intro x bs e h hx
      obtain ⟨v, hv⟩ := h a (List.mem_cons_self a rest)
      have hrest := ih x bs e (fun b hb => h b (List.mem_cons_of_mem _ hb)) hx
      simp only [poolMap, List.cons_append, List.map_cons, List.map_append] at hrest ⊢
      rw [hv]
      simp [mapResults, hrest]

/-- A successful `map` yields one result per input. -/
theorem poolMap_length {α : Type} (f : α → Except Err PyVal) :
    ∀ (xs : List α) (vs : List PyVal), poolMap f xs = .ok vs → vs.length = xs.length := by
  intro xs
  induction xs with
  | nil =>
      intro vs h
      simp only [poolMap, List.map_nil, mapResults] at h
      cases h
      rfl
  | cons y ys ih =>
      intro vs h
      simp only [poolMap, List.map_cons] at h
      cases hy : f y with
      | error e => rw [hy] at h; simp [mapResults] at h
      | ok v =>
          rw [hy] at h
          cases hrest : mapResults (List.map f ys) with
          | error e => simp [mapResults, hrest] at h
          | ok ws =>
              simp only [mapResults, hrest] at h
              cases h
              have := ih ws hrest
              simp [this]

/-- C6: `map` submits one task per input and yields one result per
input; when every task succeeds the results come back in input order
(not completion order — task outcomes are functions of their inputs
alone); when some task raises, the first error scanned in input order
is the one surfaced to the caller; and the spec's
`map(square, [1,2,3]) = [1,4,9]` example holds. -/
theorem pool_map_semantics {α : Type} (f : α → Except Err PyVal) (g : α → PyVal)
    (xs : List α) :
    ((∀ x ∈ xs, f x = Except.ok (g x)) → poolMap f xs = Except.ok (xs.map g)) ∧
    (∀ as x bs e, xs = as ++ x :: bs → (∀ a ∈ as, ∃ v, f a = Except.ok v) →
      f x = Except.error e → poolMap f xs = Except.error e) ∧
    (∀ vs, poolMap f xs = Except.ok vs → vs.length = xs.length) ∧
    poolMap squareTask [1, 2, 3] =
      Except.ok [PyVal.atom (PyAtom.int 1), PyVal.atom (PyAtom.int 4),
        PyVal.atom (PyAtom.int 9)] := by
  refine ⟨poolMap_all_ok f g xs, ?_, poolMap_length f xs, by rfl⟩
  intro as x bs e hxs hok hx
  rw [hxs]
  exact poolMap_first_error f as x bs e hok hx

/-- C6 witness: the squaring example succeeds in input order, and with
the middle task failing, its error is the one surfaced. -/
theorem pool_map_semantics_witness :
    poolMap squareTask [1, 2, 3] =
      Except.ok [PyVal.atom (PyAtom.int 1), PyVal.atom (PyAtom.int 4),
        PyVal.atom (PyAtom.int 9)] ∧
    poolMap (fun n => if n = (2 : Int) then Except.error (Err.taskError "boom")
        else squareTask n) [1, 2, 3] =
      Except.error (Err.taskError "boom") := by
  constructor
  · exact (pool_map_semantics squareTask (fun n => PyVal.atom (PyAtom.int (n * n)))
      ([] : List Int)).2.2.2
  · exact (pool_map_semantics
        (fun n => if n = (2 : Int) then Except.error (Err.taskError "boom")
          else squareTask n)
        (fun n => PyVal.atom (PyAtom.int (n * n))) [1, 2, 3]).2.1
      [1] 2 [3] (Err.taskError "boom") rfl
      (by intro a ha; refine ⟨PyVal.atom (PyAtom.int (a * a)), ?_⟩
          have : a = (1 : Int) := by simpa using ha
          subst this
          rfl)
      rfl

/-- Starting a future and running its task always lands in a terminal
state, whatever the initial state, token, or task behaviour. -/
theorem runFull_terminal (f : Future) (t : Task) :
    (f.runFull t).state.isTerminal = true := by
  cases hstate : f.state <;>
    cases htok : f.cancellationToken <;>
      cases hpoll : t.pollsToken <;>
        cases hrun : t.run <;>
          simp_all [Future.runFull, Future.start, Future.finish, FState.isTerminal]

/-- On a terminal future, running and cancelling are no-ops. -/
theorem terminal_noop (f : Future) (t : Task) (b : Bool) (h : f.state.isTerminal = true) :
    f.runFull t = f ∧ (f.cancel b).1 = f := by
  cases hstate : f.state <;>
    simp_all [Future.runFull, Future.start, Future.finish, Future.cancel, FState.isTerminal]

/-- Submitting a batch to a live pool keeps it live and appends one
pending future per task, in submission order. -/
theorem submitMany_futures (ts : List Task) (p : Pool) (hp : p.shutdownFlag = false) :
    (p.submitMany ts).shutdownFlag = false ∧
    (p.submitMany ts).futures = p.futures ++ ts.map (fun t => (Future.create, t)) := by
  induction ts generalizing p with
  | nil => exact ⟨hp, by simp [Pool.submitMany]⟩
  | cons t rest ih =>
      have hstep : p.submitStep t =
          { p with futures := p.futures ++ [(Future.create, t)] } := by
        simp [Pool.submitStep, Pool.submit, hp]
      have hrec := ih { p with futures := p.futures ++ [(Future.create, t)] } hp
      constructor
      · show (Pool.submitMany (p.submitStep t) rest).shutdownFlag = false
        rw [hstep]
        exact hrec.1
      · show (Pool.submitMany (p.submitStep t) rest).futures = _
        rw [hstep, hrec.2]
        simp

/-- Draining leaves every held future terminal. -/
theorem drain_terminal (p : Pool) :
    ∀ ft ∈ p.drain.futures, ft.1.state.isTerminal = true := by
  intro ft hft
  have hft' : ft ∈ p.futures.map (fun ft => (ft.1.runFull ft.2, ft.2)) := hft
  obtain ⟨x, _, rfl⟩ := List.mem_map.mp hft'
  exact runFull_terminal x.1 x.2

/-- A waited shutdown leaves every held future terminal. -/
theorem shutdown_wait_terminal (p : Pool) (c : Bool) :
    ∀ ft ∈ (p.shutdown true c).futures, ft.1.state.isTerminal = true := by
  intro ft hft
  cases c with
  | false =>
      have hft' : ft ∈ (Pool.drain { p with shutdownFlag := true }).futures := hft
      exact drain_terminal _ ft hft'
  | true =>
      have hft' : ft ∈ (Pool.drain
          { shutdownFlag := true
            futures := p.futures.map (fun ft => ((ft.1.cancel false).1, ft.2)) }).futures := hft
      exact drain_terminal _ ft hft'

/-- Shutting down sets the shutdown flag. -/
theorem shutdown_flag (p : Pool) (w c : Bool) :
    (p.shutdown w c).shutdownFlag = true := by
  cases w <;> cases c <;> simp [Pool.shutdown, Pool.drain]

/-- Shutting down preserves the number of held futures. -/
theorem shutdown_length (p : Pool) (c : Bool) :
    (p.shutdown true c).futures.length = p.futures.length := by
  cases c <;> simp [Pool.shutdown, Pool.drain]

/-- A shutdown pool with only terminal futures is a fixed point of
shutdown. -/
theorem shutdown_idempotent_of (p : Pool) (c : Bool)
    (hflag : p.shutdownFlag = true)
    (hterm : ∀ ft ∈ p.futures, ft.1.state.isTerminal = true) :
    p.shutdown true c = p := by
  obtain ⟨flag, futs⟩ := p
  simp only at hflag hterm
  subst hflag
  have hdrain : futs.map (fun ft => (ft.1.runFull ft.2, ft.2)) = futs := by
    have h : ∀ ft ∈ futs, (ft.1.runFull ft.2, ft.2) = ft := by
      intro ft hft
      rw [(terminal_noop ft.1 ft.2 false (hterm ft hft)).1]
    rw [List.map_congr_left h]
    simp
  have hcancel : futs.map (fun ft => ((ft.1.cancel false).1, ft.2)) = futs := by
    have h : ∀ ft ∈ futs, ((ft.1.cancel false).1, ft.2) = ft := by
      intro ft hft
      rw [(terminal_noop ft.1 ft.2 false (hterm ft hft)).2]
    rw [List.map_congr_left h]
    simp
  cases c <;> simp [Pool.shutdown, Pool.drain, hcancel, hdrain]

/-- C7: after `shutdown(wait=true)` following K submissions to a fresh
pool, the pool holds exactly K futures, all in a terminal state, every
subsequent `submit` fails with an ExecutorShutdown-kind error, and
repeating the shutdown changes nothing (idempotence). -/
theorem pool_shutdown_semantics (ts : List Task) (c : Bool) :
    ((Pool.fresh.submitMany ts).shutdown true c).futures.length = ts.length ∧
    (∀ ft ∈ ((Pool.fresh.submitMany ts).shutdown true c).futures,
      ft.1.state.isTerminal = true) ∧
    (∀ t : Task, ((Pool.fresh.submitMany ts).shutdown true c).submit t =
      Except.error Err.executorShutdownError) ∧
    ((Pool.fresh.submitMany ts).shutdown true c).shutdown true c =
      (Pool.fresh.submitMany ts).shutdown true c := by
  have hsub := submitMany_futures ts Pool.fresh rfl
  refine ⟨?_, shutdown_wait_terminal _ c, ?_, ?_⟩
  · rw [shutdown_length, hsub.2]
    simp [Pool.fresh]
  · intro t
    simp [Pool.submit, shutdown_flag]
  · exact shutdown_idempotent_of _ c (shutdown_flag _ true c)
      (shutdown_wait_terminal _ c)

/-- C7 witness: after submitting two concrete tasks and a waited
shutdown, the pool holds two futures, the drained future of the first
task is terminal, a further submission is rejected, and a second
shutdown changes nothing. -/
theorem pool_shutdown_semantics_witness :
    ((Pool.fresh.submitMany [taskReturns7, taskRaisesBoom]).shutdown true false).futures.length = 2 ∧
    (Future.create.runFull taskReturns7, taskReturns7).1.state.isTerminal = true ∧
    ((Pool.fresh.submitMany [taskReturns7, taskRaisesBoom]).shutdown true false).submit
      taskReturns7 = Except.error Err.executorShutdownError ∧
    ((Pool.fresh.submitMany [taskReturns7, taskRaisesBoom]).shutdown true
        false).shutdown true false =
      (Pool.fresh.submitMany [taskReturns7, taskRaisesBoom]).shutdown true false :=
  have h := pool_shutdown_semantics [taskReturns7, taskRaisesBoom] false
  ⟨h.1, h.2.1 (Future.create.runFull taskReturns7, taskReturns7) (by decide),
    h.2.2.1 taskReturns7, h.2.2.2⟩

/-- Every element's completion tick is bounded by the running maximum
of the set. -/
theorem le_foldr_max (fs : List (Nat × Nat)) (x : Nat × Nat) (hx : x ∈ fs) :
    x.2 ≤ (fs.map Prod.snd).foldr max 0 := by
  induction fs with
  | nil => cases hx
  | cons y ys ih =>
      rcases List.mem_cons.mp hx with rfl | h
      · exact le_max_left _ _
      · exact le_trans (ih h) (le_max_right _ _)

/-- Congruence for flatMap over pointwise-equal bucket functions. -/
theorem flatMap_congr_left {α β : Type} (l : List α) (f g : α → List β)
    (h : ∀ a ∈ l, f a = g a) : l.flatMap f = l.flatMap g := by
  induction l with
  | nil => rfl
  | cons a rest ih =>
      rw [List.flatMap_cons, List.flatMap_cons, h a (List.mem_cons_self a rest),
        ih (fun b hb => h b (List.mem_cons_of_mem _ hb))]

/-- Splitting a list into per-tick buckets along a duplicate-free tick
list covering every element yields a permutation of the list. -/
theorem flatMap_buckets_perm :
    ∀ (ts : List Nat) (fs : List (Nat × Nat)), ts.Nodup →
      (∀ p ∈ fs, p.2 ∈ ts) →
      (ts.flatMap (fun t => fs.filter (fun p => p.2 = t))).Perm fs := by
  intro ts
  induction ts with
  | nil =>
      intro fs _ hcov
      cases fs with
      | nil => simp
      | cons p rest => exact absurd (hcov p (List.mem_cons_self p rest)) (List.not_mem_nil _)
  | cons t rest ih =>
      intro fs hnd hcov
      have hnd' := List.nodup_cons.mp hnd
      have hbuckets : rest.flatMap (fun u => fs.filter (fun p => p.2 = u)) =
          rest.flatMap
            (fun u => (fs.filter (fun p => !(p.2 = t))).filter (fun p => p.2 = u)) := by
        apply flatMap_congr_left
        intro u hu
        have hut : u ≠ t := fun he => hnd'.1 (he ▸ hu)
        rw [List.filter_filter]
        apply List.filter_congr
        intro p _
        by_cases hp : p.2 = u
        · simp [hp, hut]
        · simp [hp]
      have hcov' : ∀ p ∈ fs.filter (fun p => !(p.2 = t)), p.2 ∈ rest := by
        intro p hp
        obtain ⟨hmem, hne⟩ := List.mem_filter.mp hp
        have hne' : p.2 ≠ t := by simpa using hne
        rcases List.mem_cons.mp (hcov p hmem) with he | hr
        · exact absurd he hne'
        · exact hr
      have hperm := ih (fs.filter (fun p => !(p.2 = t))) hnd'.2 hcov'
      rw [List.flatMap_cons, hbuckets]
      exact (hperm.append_left (fs.filter (fun p => p.2 = t))).trans
        (List.filter_append_perm _ fs)

/-- The completion-ordered iteration is a permutation of the submitted
set: every future is yielded, with its original multiplicity. -/
theorem asCompleted_perm (fs : List (Nat × Nat)) : (asCompleted fs).Perm fs := by
  rw [asCompleted]
  exact flatMap_buckets_perm _ fs (List.nodup_range _)
    (fun p hp => List.mem_range.mpr (Nat.lt_succ_of_le (le_foldr_max fs p hp)))

/-- The completion-ordered iteration is sorted by completion tick. -/
theorem asCompleted_sorted (fs : List (Nat × Nat)) :
    (asCompleted fs).Pairwise (fun a b => a.2 ≤ b.2) := by
  rw [asCompleted, List.pairwise_flatMap]
  constructor
  · intro t _
    apply List.pairwise_of_forall_mem_list
    intro a ha b hb
    have ha2 : a.2 = t := by simpa using (List.mem_filter.mp ha).2
    have hb2 : b.2 = t := by simpa using (List.mem_filter.mp hb).2
    omega
  · refine (List.pairwise_lt_range _).imp ?_
    intro t1 t2 h12 a ha b hb
    have ha2 : a.2 = t1 := by simpa using (List.mem_filter.mp ha).2
    have hb2 : b.2 = t2 := by simpa using (List.mem_filter.mp hb).2
    omega

/-- C5: `as_completed` yields a permutation of the submitted set of
futures — each future exactly once when the set has no duplicates,
none missed even if already terminal before iteration begins — in
completion order (non-decreasing terminal tick), not submission
order. -/
theorem as_completed_each_once_in_completion_order (fs : List (Nat × Nat)) :
    (asCompleted fs).Perm fs ∧
    (asCompleted fs).Pairwise (fun a b => a.2 ≤ b.2) ∧
    (∀ x ∈ fs, x ∈ asCompleted fs) ∧
    (fs.Nodup → (asCompleted fs).Nodup) := by
  refine ⟨asCompleted_perm fs, asCompleted_sorted fs, ?_, ?_⟩
  · intro x hx
    exact (asCompleted_perm fs).mem_iff.mpr hx
  · intro hnd
    exact (asCompleted_perm fs).symm.nodup hnd

/-- C5 witness: two futures submitted in one order and completing in
the other are yielded in completion order, each exactly once. -/
theorem as_completed_each_once_witness :
    asCompleted [(10, 5), (20, 0)] = [(20, 0), (10, 5)] ∧
    (asCompleted [(10, 5), (20, 0)]).Nodup := by
  constructor
  · decide
  · exact (as_completed_each_once_in_completion_order [(10, 5), (20, 0)]).2.2.2
      (by decide)

end QThreadWithReturn
